import Mathlib

/-!
Verification of the Recipe-Recommender repository.

The repository ships a Streamlit UI (src/app.py) that drives a
RecipeRecommender class (recommender.py).  The recommender module itself is
not present under src/, so its operations (corpus loading, allergen
detection, TF-IDF vectorization, similarity ranking and the recommend
facade) are modelled from the specification; src/app.py is embedded
directly.
-/

namespace RecipeRec

/-- Lowercases every character of a character list. -/
def lowerChars (l : List Char) : List Char := l.map Char.toLower

/-- Boolean test that the first character list is an initial segment of the
second. -/
def startsWithL : List Char → List Char → Bool
  | [], _ => true
  | _ :: _, [] => false
  | p :: ps, c :: cs => p == c && startsWithL ps cs

/-- Boolean test that the first character list occurs contiguously inside
the second. -/
def substrAux : List Char → List Char → Bool
  | pat, [] => startsWithL pat []
  | pat, c :: cs => startsWithL pat (c :: cs) || substrAux pat cs

/-- Case-insensitive substring test on strings. -/
def ciHasSubstr (pat s : String) : Bool :=
  substrAux (lowerChars pat.toList) (lowerChars s.toList)

/-- Boolean test that a string is empty or consists only of whitespace,
mirroring the truthiness test of Python's str.strip(). -/
def isBlank (s : String) : Bool := s.toList.all Char.isWhitespace

/-- Modelled from the spec: recommender.py is absent from src/.  Spec 4.3
describes query tokenization as lowercasing and splitting on
non-alphanumeric boundaries; this accumulator-based splitter implements
exactly that. -/
def splitTokens : List Char → List Char → List String
  | [], cur => if cur.isEmpty then [] else [String.mk cur.reverse]
  | c :: rest, cur =>
    if c.isAlphanum then splitTokens rest (c.toLower :: cur)
    else if cur.isEmpty then splitTokens rest []
    else String.mk cur.reverse :: splitTokens rest []

/-- Modelled from the spec: tokenizer of the missing vectorizer (spec 4.3):
lowercase, split on non-alphanumeric boundaries. -/
def tokenize (text : String) : List String := splitTokens text.toList []

/-- Modelled from the spec: the fixed allergen category-to-trigger-keyword
mapping of the missing Allergen Detector (spec 4.2), in its fixed
deterministic category order. -/
def allergenCategories : List (String × List String) :=
  [("dairy", ["milk", "cheese", "butter", "cream", "yogurt"]),
   ("eggs", ["egg", "eggs"]),
   ("nuts", ["peanut", "almond", "walnut", "cashew", "pecan", "hazelnut"]),
   ("soy", ["soy", "tofu", "edamame"])]

/-- Modelled from the spec: case-insensitive substring match of every
trigger keyword of one category against every ingredient string
(spec 4.2). -/
def categoryMatches (ings : List String) (kws : List String) : Bool :=
  ings.any (fun ing => kws.any (fun kw => ciHasSubstr kw ing))

/-- Modelled from the spec: the matched category names, in the fixed
category order of allergenCategories (spec 4.2). -/
def matchedCats (ings : List String) : List String :=
  (allergenCategories.filter (fun p => categoryMatches ings p.2)).map Prod.fst

/-- Modelled from the spec: detect of the missing Allergen Detector
(spec 4.2): the comma-joined matched category names in fixed order, or the
literal "None" when no category matched. -/
def detect (ings : List String) : String :=
  if matchedCats ings = [] then "None" else String.intercalate ", " (matchedCats ings)

/-- The label produced for a given combination of per-category match
results, used to reason about detect by finite case analysis. -/
def labelOf (d e n s : Bool) : String :=
  let cats := (if d then ["dairy"] else []) ++ (if e then ["eggs"] else []) ++
              (if n then ["nuts"] else []) ++ (if s then ["soy"] else [])
  if cats = [] then "None" else String.intercalate ", " cats

theorem detect_eq_labelOf (l : List String) :
    detect l = labelOf (categoryMatches l ["milk", "cheese", "butter", "cream", "yogurt"])
      (categoryMatches l ["egg", "eggs"])
      (categoryMatches l ["peanut", "almond", "walnut", "cashew", "pecan", "hazelnut"])
      (categoryMatches l ["soy", "tofu", "edamame"]) := by
  unfold detect matchedCats allergenCategories labelOf
  cases h1 : categoryMatches l ["milk", "cheese", "butter", "cream", "yogurt"] <;>
  cases h2 : categoryMatches l ["egg", "eggs"] <;>
  cases h3 : categoryMatches l ["peanut", "almond", "walnut", "cashew", "pecan", "hazelnut"] <;>
  cases h4 : categoryMatches l ["soy", "tofu", "edamame"] <;>
    simp [List.filter, h1, h2, h3, h4]

/-- Splits a label on commas into category names, skipping spaces; inverse
of the comma-join performed by detect. -/
def splitCats : List Char → List Char → List String
  | [], cur => if cur.isEmpty then [] else [String.mk cur.reverse]
  | c :: rest, cur =>
    if c = ',' then
      (if cur.isEmpty then [] else [String.mk cur.reverse]) ++ splitCats rest []
    else if c = ' ' then splitCats rest cur
    else splitCats rest (c :: cur)

/-- The category names carried by an allergen label string. -/
def splitLabel (label : String) : List String := splitCats label.toList []

/-- Modelled from the spec: case-insensitive membership of one excluded
category among the categories of a label (spec 4.5 step d). -/
def exclCheck (label : String) (e : String) : Bool :=
  (splitLabel label).any (fun cat => lowerChars cat.toList == lowerChars e.toList)

/-- Modelled from the spec: the allergen-exclusion test of the missing
recommend facade (spec 4.5 step d): a label matches the exclusion set when
one of its categories equals an excluded category case-insensitively, and
a recipe labeled "None" never matches any exclusion. -/
def matchesExclusion (label : String) (excl : List String) : Bool :=
  if label = "None" then false else excl.any (fun e => exclCheck label e)

theorem matchesExclusion_none (excl : List String) :
    matchesExclusion "None" excl = false := rfl

theorem matchesExclusion_singleton (label : String) (excl : List String) (c : String)
    (h : matchesExclusion label excl = false) (hc : c ∈ excl) :
    matchesExclusion label [c] = false := by
  unfold matchesExclusion at h ⊢
  by_cases hn : label = "None"
  · simp [hn]
  · simp only [hn, if_false] at h ⊢
    simp only [List.any_eq_false] at h ⊢
    intro x hx
    have hxc := List.mem_singleton.mp hx
    subst hxc
    exact h _ hc

theorem excl_no_substr (c : String)
    (hc : c ∈ (["eggs", "dairy", "nuts", "soy"] : List String)) :
    ∀ d e n s : Bool, matchesExclusion (labelOf d e n s) [c] = false →
      ciHasSubstr c (labelOf d e n s) = false := by
  simp only [List.mem_cons, List.mem_singleton, List.not_mem_nil, or_false] at hc
  rcases hc with rfl | rfl | rfl | rfl
  · decide
  · decide
  · decide
  · decide

theorem any_congr_perm {α : Type} {l₁ l₂ : List α} (h : l₁.Perm l₂) (f : α → Bool) :
    l₁.any f = l₂.any f := by
  rw [Bool.eq_iff_iff, List.any_eq_true, List.any_eq_true]
  constructor
  · rintro ⟨x, hx, hfx⟩
    exact ⟨x, h.mem_iff.mp hx, hfx⟩
  · rintro ⟨x, hx, hfx⟩
    exact ⟨x, h.mem_iff.mpr hx, hfx⟩

/-- C5: for every ingredient list, detect returns the comma-joined names of
exactly the matched allergen categories in the fixed category order of
allergenCategories, or the literal "None" when no category matched; the
label is independent of input order; a list containing "cheese" yields a
label containing "dairy" and a list containing "tofu" yields a label
containing "soy". -/
theorem detect_spec (l : List String) :
    (∀ p ∈ allergenCategories, ciHasSubstr p.1 (detect l) = categoryMatches l p.2)
    ∧ (detect l = "None" ↔ ∀ p ∈ allergenCategories, categoryMatches l p.2 = false)
    ∧ ("cheese" ∈ l → ciHasSubstr "dairy" (detect l) = true)
    ∧ ("tofu" ∈ l → ciHasSubstr "soy" (detect l) = true)
    ∧ (∀ l₂, l.Perm l₂ → detect l = detect l₂) := by
  have hd := detect_eq_labelOf l
  refine ⟨?_, ?_, ?_, ?_, ?_⟩
  · rw [hd]
    simp only [allergenCategories, List.forall_mem_cons, List.not_mem_nil, false_implies,
      implies_true, and_true]
    generalize categoryMatches l ["milk", "cheese", "butter", "cream", "yogurt"] = b1
    generalize categoryMatches l ["egg", "eggs"] = b2
    generalize categoryMatches l ["peanut", "almond", "walnut", "cashew", "pecan", "hazelnut"] = b3
    generalize categoryMatches l ["soy", "tofu", "edamame"] = b4
    revert b1 b2 b3 b4
    decide
  · rw [hd]
    simp only [allergenCategories, List.forall_mem_cons, List.not_mem_nil, false_implies,
      implies_true, and_true]
    generalize categoryMatches l ["milk", "cheese", "butter", "cream", "yogurt"] = b1
    generalize categoryMatches l ["egg", "eggs"] = b2
    generalize categoryMatches l ["peanut", "almond", "walnut", "cashew", "pecan", "hazelnut"] = b3
    generalize categoryMatches l ["soy", "tofu", "edamame"] = b4
    revert b1 b2 b3 b4
    decide
  · intro hch
    have hb1 : categoryMatches l ["milk", "cheese", "butter", "cream", "yogurt"] = true := by
      unfold categoryMatches
      rw [List.any_eq_true]
      exact ⟨"cheese", hch, by decide⟩
    rw [hd, hb1]
    generalize categoryMatches l ["egg", "eggs"] = b2
    generalize categoryMatches l ["peanut", "almond", "walnut", "cashew", "pecan", "hazelnut"] = b3
    generalize categoryMatches l ["soy", "tofu", "edamame"] = b4
    revert b2 b3 b4
    decide
  · intro htf
    have hb4 : categoryMatches l ["soy", "tofu", "edamame"] = true := by
      unfold categoryMatches
      rw [List.any_eq_true]
      exact ⟨"tofu", htf, by decide⟩
    rw [hd, hb4]
    generalize categoryMatches l ["milk", "cheese", "butter", "cream", "yogurt"] = b1
    generalize categoryMatches l ["egg", "eggs"] = b2
    generalize categoryMatches l ["peanut", "almond", "walnut", "cashew", "pecan", "hazelnut"] = b3
    revert b1 b2 b3
    decide
  · intro l₂ hperm
    have hcm : ∀ kws, categoryMatches l kws = categoryMatches l₂ kws := by
      intro kws
      unfold categoryMatches
      exact any_congr_perm hperm _
    rw [detect_eq_labelOf l, detect_eq_labelOf l₂, hcm, hcm, hcm, hcm]

/-- C5 witness: a recipe whose ingredients include "cheese" gets a label
containing "dairy". -/
theorem detect_spec_witness :
    ciHasSubstr "dairy" (detect ["cheese", "milk"]) = true :=
  (detect_spec ["cheese", "milk"]).2.2.1 (by decide)

/-- A recipe record as loaded into the in-memory table: identity, name,
cuisine, raw ingredient list and the allergen label precomputed at load
time. -/
structure Recipe where
  rid : Nat
  name : String
  cuisine : String
  ingredients : List String
  allergens : String

/-- A raw dataset entry before loading. -/
structure RawRecipe where
  rid : Nat
  name : String
  cuisine : String
  ingredients : List String

/-- Modelled from the spec: the missing Corpus Loader populates the
allergen label of every recipe via the Allergen Detector at load time
(spec 4.1). -/
def loadRecipe (r : RawRecipe) : Recipe :=
  ⟨r.rid, r.name, r.cuisine, r.ingredients, detect r.ingredients⟩

/-- Modelled from the spec: loading a whole raw dataset (spec 4.1). -/
def loadRecipes (rs : List RawRecipe) : List Recipe := rs.map loadRecipe

/-- Dot product of two real vectors represented as lists, truncating at the
shorter one. -/
noncomputable def dotR : List ℝ → List ℝ → ℝ
  | [], _ => 0
  | _ :: _, [] => 0
  | a :: as, b :: bs => a * b + dotR as bs

/-- Squared Euclidean norm of a real vector. -/
noncomputable def norm2R (v : List ℝ) : ℝ := dotR v v

/-- Modelled from the spec: L2 normalization of a vector (spec 4.3); the
all-zero vector maps to itself because real division by zero is zero. -/
noncomputable def l2norm (v : List ℝ) : List ℝ :=
  v.map (fun x => x / Real.sqrt (norm2R v))

/-- Modelled from the spec: the similarity score of the missing ranker
(spec 4.4): cosine similarity as the dot product of the L2-normalized
vectors. -/
noncomputable def cosineSim (a b : List ℝ) : ℝ := dotR (l2norm a) (l2norm b)

theorem norm2R_cons (x : ℝ) (xs : List ℝ) :
    norm2R (x :: xs) = x * x + norm2R xs := rfl

theorem norm2R_nonneg (v : List ℝ) : 0 ≤ norm2R v := by
  induction v with
  | nil => exact le_refl 0
  | cons x xs ih =>
    rw [norm2R_cons]
    nlinarith [mul_self_nonneg x]

theorem dotR_nonneg {a b : List ℝ} (ha : ∀ x ∈ a, 0 ≤ x) (hb : ∀ x ∈ b, 0 ≤ x) :
    0 ≤ dotR a b := by
  induction a generalizing b with
  | nil => exact le_refl 0
  | cons x xs ih =>
    cases b with
    | nil => exact le_refl 0
    | cons y ys =>
      rw [List.forall_mem_cons] at ha hb
      unfold dotR
      have h1 := mul_nonneg ha.1 hb.1
      have h2 := ih ha.2 hb.2
      linarith

theorem dotR_sq_le (a b : List ℝ) : (dotR a b) ^ 2 ≤ norm2R a * norm2R b := by
  induction a generalizing b with
  | nil =>
    show (0 : ℝ) ^ 2 ≤ norm2R [] * norm2R b
    have := norm2R_nonneg b
    simp [norm2R, dotR]
  | cons x xs ih =>
    cases b with
    | nil =>
      show (0 : ℝ) ^ 2 ≤ norm2R (x :: xs) * norm2R []
      have := norm2R_nonneg (x :: xs)
      simp [norm2R, dotR]
    | cons y ys =>
      have hna := norm2R_nonneg xs
      have hnb := norm2R_nonneg ys
      have hIH := ih ys
      show (x * y + dotR xs ys) ^ 2 ≤ (x * x + norm2R xs) * (y * y + norm2R ys)
      rcases eq_or_lt_of_le hna with hna0 | hnapos
      · have hd0 : dotR xs ys = 0 := by
          have h1 : (dotR xs ys) ^ 2 ≤ 0 := by
            rw [← hna0] at hIH
            simpa using hIH
          nlinarith [sq_nonneg (dotR xs ys)]
        rw [hd0, ← hna0]
        nlinarith [sq_nonneg (x * y), mul_self_nonneg x, mul_self_nonneg y]
      · have key : 0 ≤ norm2R xs * (x ^ 2 * norm2R ys + y ^ 2 * norm2R xs
            - 2 * x * y * dotR xs ys) := by
          nlinarith [sq_nonneg (x * dotR xs ys - y * norm2R xs),
            mul_nonneg (sq_nonneg x) (sub_nonneg.mpr hIH)]
        have hP : 0 ≤ x ^ 2 * norm2R ys + y ^ 2 * norm2R xs
            - 2 * x * y * dotR xs ys :=
          (mul_nonneg_iff_of_pos_left hnapos).mp key
        nlinarith [hP, hIH]

theorem dotR_map_div (a b : List ℝ) (s t : ℝ) :
    dotR (a.map (fun x => x / s)) (b.map (fun x => x / t)) = dotR a b / (s * t) := by
  induction a generalizing b with
  | nil => simp [dotR]
  | cons x xs ih =>
    cases b with
    | nil => simp [dotR]
    | cons y ys =>
      simp only [List.map_cons]
      show x / s * (y / t) + dotR (xs.map fun x => x / s) (ys.map fun x => x / t)
          = (x * y + dotR xs ys) / (s * t)
      rw [ih ys, div_mul_div_comm, div_add_div_same]

theorem cosineSim_eq (a b : List ℝ) :
    cosineSim a b = dotR a b / (Real.sqrt (norm2R a) * Real.sqrt (norm2R b)) := by
  unfold cosineSim l2norm
  exact dotR_map_div a b _ _

/-- C4: the similarity score computed by the ranker, the cosine similarity
obtained as dot product of the L2-normalized vectors, lies in the closed
interval from 0 to 1 whenever both vectors are entrywise non-negative. -/
theorem cosineSim_unit_interval (a b : List ℝ)
    (ha : ∀ x ∈ a, 0 ≤ x) (hb : ∀ x ∈ b, 0 ≤ x) :
    0 ≤ cosineSim a b ∧ cosineSim a b ≤ 1 := by
  rw [cosineSim_eq]
  have hd := dotR_nonneg ha hb
  have hsa := Real.sqrt_nonneg (norm2R a)
  have hsb := Real.sqrt_nonneg (norm2R b)
  have hden : 0 ≤ Real.sqrt (norm2R a) * Real.sqrt (norm2R b) := mul_nonneg hsa hsb
  rcases eq_or_lt_of_le hden with hz | hpos
  · rw [← hz, div_zero]
    exact ⟨le_refl 0, zero_le_one⟩
  · constructor
    · exact div_nonneg hd (le_of_lt hpos)
    · rw [div_le_one hpos]
      calc dotR a b = Real.sqrt ((dotR a b) ^ 2) := (Real.sqrt_sq hd).symm
        _ ≤ Real.sqrt (norm2R a * norm2R b) := Real.sqrt_le_sqrt (dotR_sq_le a b)
        _ = Real.sqrt (norm2R a) * Real.sqrt (norm2R b) :=
            Real.sqrt_mul (norm2R_nonneg a) _

/-- C4 witness: the bounds instantiated at concrete non-negative vectors. -/
theorem cosineSim_unit_interval_witness :
    0 ≤ cosineSim [1, 2] [2, 1] ∧ cosineSim [1, 2] [2, 1] ≤ 1 := by
  have h1 : ∀ x ∈ ([1, 2] : List ℝ), 0 ≤ x := by
    intro x hx
    rcases List.mem_cons.mp hx with rfl | hx
    · norm_num
    · rcases List.mem_singleton.mp hx with rfl
      norm_num
  have h2 : ∀ x ∈ ([2, 1] : List ℝ), 0 ≤ x := by
    intro x hx
    rcases List.mem_cons.mp hx with rfl | hx
    · norm_num
    · rcases List.mem_singleton.mp hx with rfl
      norm_num
  exact cosineSim_unit_interval [1, 2] [2, 1] h1 h2

/-- Modelled from the spec: the raw (un-normalized) query vector of the
missing vectorizer (spec 4.3): one dimension per vocabulary term, each
dimension the query's term count weighted by that term's
inverse-document-frequency weight; tokens outside the vocabulary
contribute zero and the vocabulary never grows at query time.  The idf
weight function is kept abstract since no claim depends on its exact
log-scaled formula. -/
noncomputable def rawTransform (vocab : List String) (idf : String → ℝ) (text : String) :
    List ℝ :=
  vocab.map (fun t => ((tokenize text).count t : ℝ) * idf t)

/-- Modelled from the spec: transform of the missing vectorizer (spec 4.3):
the L2-normalized weighted term-count vector over the fitted vocabulary. -/
noncomputable def transform (vocab : List String) (idf : String → ℝ) (text : String) :
    List ℝ :=
  l2norm (rawTransform vocab idf text)

/-- Modelled from the spec: scoring step of the missing ranker (spec 4.4):
cosine similarity of the query vector against every corpus vector, indexed
by original corpus position. -/
noncomputable def scoreAll (q : List ℝ) (vecs : List (List ℝ)) : List (ℕ × ℝ) :=
  vecs.enum.map (fun p => (p.1, cosineSim q p.2))

theorem rawTransform_zero (vocab : List String) (idf : String → ℝ) (q : String)
    (hq : ∀ t ∈ tokenize q, t ∉ vocab) :
    rawTransform vocab idf q = List.replicate vocab.length 0 := by
  induction vocab with
  | nil => rfl
  | cons v vs ih =>
    have hv : v ∉ tokenize q := by
      intro hmem
      exact hq v hmem (List.mem_cons_self v vs)
    have hcount : (tokenize q).count v = 0 := List.count_eq_zero.mpr hv
    have hq' : ∀ t ∈ tokenize q, t ∉ vs := by
      intro t ht hts
      exact hq t ht (List.mem_cons_of_mem v hts)
    show (((tokenize q).count v : ℝ) * idf v) :: rawTransform vs idf q
        = 0 :: List.replicate vs.length 0
    rw [hcount, ih hq']
    norm_num

theorem l2norm_replicate_zero (n : ℕ) :
    l2norm (List.replicate n 0) = List.replicate n 0 := by
  unfold l2norm
  rw [List.map_replicate, zero_div]

theorem dotR_replicate_zero (n : ℕ) (v : List ℝ) :
    dotR (List.replicate n 0) v = 0 := by
  induction n generalizing v with
  | zero => rfl
  | succ m ih =>
    cases v with
    | nil => rfl
    | cons y ys =>
      show (0 : ℝ) * y + dotR (List.replicate m 0) ys = 0
      rw [ih ys]
      ring

theorem cosineSim_replicate_zero (n : ℕ) (v : List ℝ) :
    cosineSim (List.replicate n 0) v = 0 := by
  unfold cosineSim
  rw [l2norm_replicate_zero]
  exact dotR_replicate_zero n (l2norm v)

/-- C6: a query all of whose tokens are absent from the fitted vocabulary
transforms to the all-zero vector, and every corpus vector's similarity
score against such a query is zero. -/
theorem transform_unknown_tokens (vocab : List String) (idf : String → ℝ)
    (vecs : List (List ℝ)) (q : String) (hq : ∀ t ∈ tokenize q, t ∉ vocab) :
    transform vocab idf q = List.replicate vocab.length 0
    ∧ ∀ p ∈ scoreAll (transform vocab idf q) vecs, p.2 = 0 := by
  have htr : transform vocab idf q = List.replicate vocab.length 0 := by
    unfold transform
    rw [rawTransform_zero vocab idf q hq, l2norm_replicate_zero]
  refine ⟨htr, ?_⟩
  intro p hp
  rcases List.mem_map.mp hp with ⟨pr, _, hpr⟩
  rw [← hpr]
  show cosineSim (transform vocab idf q) pr.2 = 0
  rw [htr]
  exact cosineSim_replicate_zero vocab.length pr.2

/-- A concrete constant idf weight function used in test instances. -/
noncomputable def constIdf : String → ℝ := fun _ => 1

/-- C6 witness: a fully out-of-vocabulary query transforms to the zero
vector. -/
theorem transform_unknown_tokens_witness :
    transform ["tomato"] constIdf "xyzzy, plugh" = List.replicate 1 0 :=
  (transform_unknown_tokens ["tomato"] constIdf [[1]] "xyzzy, plugh" (by decide)).1

/-- Modelled from the spec: the ordering of the missing ranker (spec 4.4):
a result precedes another when its score is larger, with score ties broken
by ascending original corpus index. -/
def rankRel (a b : ℕ × ℝ) : Prop := b.2 < a.2 ∨ (a.2 = b.2 ∧ a.1 ≤ b.1)

noncomputable instance : DecidableRel rankRel :=
  fun a b => inferInstanceAs (Decidable (b.2 < a.2 ∨ (a.2 = b.2 ∧ a.1 ≤ b.1)))

instance : IsTotal (ℕ × ℝ) rankRel := by
  constructor
  intro a b
  rcases lt_trichotomy a.2 b.2 with h | h | h
  · exact Or.inr (Or.inl h)
  · rcases Nat.le_total a.1 b.1 with hn | hn
    · exact Or.inl (Or.inr ⟨h, hn⟩)
    · exact Or.inr (Or.inr ⟨h.symm, hn⟩)
  · exact Or.inl (Or.inl h)

instance : IsTrans (ℕ × ℝ) rankRel := by
  constructor
  intro a b c hab hbc
  rcases hab with h1 | ⟨h1e, h1n⟩
  · rcases hbc with h2 | ⟨h2e, h2n⟩
    · exact Or.inl (lt_trans h2 h1)
    · exact Or.inl (h2e ▸ h1)
  · rcases hbc with h2 | ⟨h2e, h2n⟩
    · refine Or.inl ?_
      rw [h1e]
      exact h2
    · exact Or.inr ⟨h1e.trans h2e, le_trans h1n h2n⟩

/-- Modelled from the spec: rank of the missing Similarity Ranker
(spec 4.4): scores every corpus vector and sorts descending by score with
ties broken by ascending original index, with no truncation. -/
noncomputable def rank (q : List ℝ) (vecs : List (List ℝ)) : List (ℕ × ℝ) :=
  List.insertionSort rankRel (scoreAll q vecs)

/-- C2: rank returns the scored corpus ordered descending by score with
ties broken by ascending original corpus index, performs no truncation
(its output is a permutation of the full scored corpus and has the
corpus's length), so adjacent scores are non-increasing. -/
theorem rank_spec (q : List ℝ) (vecs : List (List ℝ)) :
    List.Pairwise (fun a b : ℕ × ℝ => b.2 < a.2 ∨ (a.2 = b.2 ∧ a.1 < b.1)) (rank q vecs)
    ∧ (rank q vecs).length = vecs.length
    ∧ (rank q vecs).Perm (scoreAll q vecs) := by
  have hperm : (rank q vecs).Perm (scoreAll q vecs) :=
    List.perm_insertionSort rankRel _
  have hsorted : List.Sorted rankRel (rank q vecs) :=
    List.sorted_insertionSort rankRel _
  have hlen : (scoreAll q vecs).length = vecs.length := by
    simp [scoreAll, List.enum_length]
  have hfst : (scoreAll q vecs).map Prod.fst = List.range vecs.length := by
    unfold scoreAll
    rw [List.map_map]
    have hcomp : (Prod.fst ∘ fun p : ℕ × List ℝ => (p.1, cosineSim q p.2)) = Prod.fst := rfl
    rw [hcomp, List.enum_map_fst]
  have hnodup : ((rank q vecs).map Prod.fst).Nodup := by
    have hsn : ((scoreAll q vecs).map Prod.fst).Nodup := by
      rw [hfst]
      exact List.nodup_range _
    exact ((hperm.map Prod.fst).nodup_iff).mpr hsn
  have hne : List.Pairwise (fun a b : ℕ × ℝ => a.1 ≠ b.1) (rank q vecs) :=
    List.pairwise_map.mp hnodup
  refine ⟨?_, hperm.length_eq.trans hlen, hperm⟩
  refine List.Pairwise.imp ?_ (List.Pairwise.and hsorted hne)
  rintro a b ⟨hr, hab⟩
  rcases hr with h | ⟨he, hle⟩
  · exact Or.inl h
  · exact Or.inr ⟨he, lt_of_le_of_ne hle hab⟩

/-- Modelled from the spec: the error taxonomy entry for rejected
empty/whitespace-only queries (spec 4.5 step a and section 7). -/
inductive RecipeError where
  | emptyQueryError

/-- One recommendation result: a recipe reference plus its similarity
score. -/
structure ScoredRecipe where
  recipe : Recipe
  similarity : ℝ

/-- Modelled from the spec: the successful-path result list of the missing
recommend facade (spec 4.5 steps b-e): rank the full corpus against the
transformed query, attach recipe records by corpus index, drop results
whose allergen label matches the exclusion set, and keep the first top-N
of the still-ordered remainder (none when top-N is non-positive). -/
noncomputable def recommendList (recipes : List Recipe) (vecs : List (List ℝ))
    (vocab : List String) (idf : String → ℝ) (query : String) (topN : Int)
    (excl : List String) : List ScoredRecipe :=
  (((rank (transform vocab idf query) vecs).filterMap
      (fun p => (recipes.get? p.1).map (fun r => ScoredRecipe.mk r p.2))).filter
      (fun sr => !matchesExclusion sr.recipe.allergens excl)).take topN.toNat

/-- Modelled from the spec: recommend of the missing facade (spec 4.5):
rejects empty/whitespace-only query text with the empty-query error and
otherwise returns the filtered, truncated ranking. -/
noncomputable def recommend (recipes : List Recipe) (vecs : List (List ℝ))
    (vocab : List String) (idf : String → ℝ) (query : String) (topN : Int)
    (excl : List String) : Except RecipeError (List ScoredRecipe) :=
  if isBlank query then Except.error RecipeError.emptyQueryError
  else Except.ok (recommendList recipes vecs vocab idf query topN excl)

theorem recommend_ok (recipes : List Recipe) (vecs : List (List ℝ))
    (vocab : List String) (idf : String → ℝ) (query : String) (topN : Int)
    (excl : List String) (hq : isBlank query = false) :
    recommend recipes vecs vocab idf query topN excl
      = Except.ok (recommendList recipes vecs vocab idf query topN excl) := by
  simp [recommend, hq]

/-- C7: recommend fails with the empty-query error on every empty or
whitespace-only query text, returning no partial result; the model is a
pure function, so shared corpus state is unaffected. -/
theorem recommend_empty_query (recipes : List Recipe) (vecs : List (List ℝ))
    (vocab : List String) (idf : String → ℝ) (query : String) (topN : Int)
    (excl : List String) (hq : isBlank query = true) :
    recommend recipes vecs vocab idf query topN excl
      = Except.error RecipeError.emptyQueryError := by
  simp [recommend, hq]

/-- C7 witness: a whitespace-only query is rejected. -/
theorem recommend_empty_query_witness :
    recommend [] [] [] constIdf "  " 3 ["nuts"]
      = Except.error RecipeError.emptyQueryError :=
  recommend_empty_query [] [] [] constIdf "  " 3 ["nuts"] (by decide)

/-- C3 counterexample: the claim promises that no error is raised whenever
top-N is non-positive, for every query; but a whitespace-only query raises
the empty-query error even with top-N equal to zero. -/
theorem recommend_truncation_counterexample :
    recommend (loadRecipes []) [] [] constIdf " " 0 []
      = Except.error RecipeError.emptyQueryError := rfl

/-- C3 (amended): for every query that is not empty/whitespace-only,
recommend succeeds and returns at most max(top-N, 0) results, exactly none
when top-N is non-positive; empty/whitespace-only queries instead raise
the empty-query error for every top-N. -/
theorem recommend_truncation (recipes : List Recipe) (vecs : List (List ℝ))
    (vocab : List String) (idf : String → ℝ) (query : String) (topN : Int)
    (excl : List String) (hq : isBlank query = false) :
    (recommend recipes vecs vocab idf query topN excl
        = Except.ok (recommendList recipes vecs vocab idf query topN excl))
    ∧ (recommendList recipes vecs vocab idf query topN excl).length ≤ topN.toNat
    ∧ (topN ≤ 0 → recommendList recipes vecs vocab idf query topN excl = []) := by
  refine ⟨recommend_ok recipes vecs vocab idf query topN excl hq, ?_, ?_⟩
  · unfold recommendList
    rw [List.length_take]
    exact min_le_left _ _
  · intro hn
    unfold recommendList
    rw [Int.toNat_of_nonpos hn, List.take_zero]

/-- C3 witness: a valid query with top-N zero yields the empty result
list. -/
theorem recommend_truncation_witness :
    recommendList (loadRecipes []) [] [] constIdf "chicken" 0 [] = [] :=
  (recommend_truncation (loadRecipes []) [] [] constIdf "chicken" 0 []
    (by decide)).2.2 (by decide)

/-- C1: on a corpus whose allergen labels were produced by the loader's
detect pass, no result returned by recommend has an allergen label that
contains an excluded allergen category (case-insensitively), and a recipe
labeled "None" is never excluded. -/
theorem recommend_excludes (raws : List RawRecipe) (vecs : List (List ℝ))
    (vocab : List String) (idf : String → ℝ) (query : String) (topN : Int)
    (excl : List String) (out : List ScoredRecipe) (sr : ScoredRecipe) (c : String)
    (hexcl : ∀ e ∈ excl, e ∈ (["eggs", "dairy", "nuts", "soy"] : List String))
    (hout : recommend (loadRecipes raws) vecs vocab idf query topN excl = Except.ok out)
    (hsr : sr ∈ out) (hc : c ∈ excl) :
    ciHasSubstr c sr.recipe.allergens = false
    ∧ matchesExclusion "None" excl = false := by
  refine ⟨?_, matchesExclusion_none excl⟩
  cases hb : isBlank query with
  | true =>
    rw [recommend_empty_query _ _ _ _ _ _ _ hb] at hout
    cases hout
  | false =>
    rw [recommend_ok _ _ _ _ _ _ _ hb] at hout
    have hout' : recommendList (loadRecipes raws) vecs vocab idf query topN excl = out :=
      Except.ok.inj hout
    rw [← hout'] at hsr
    unfold recommendList at hsr
    have hsr2 := List.mem_of_mem_take hsr
    rcases List.mem_filter.mp hsr2 with ⟨hsr3, hflt⟩
    have hfalse : matchesExclusion sr.recipe.allergens excl = false := by
      simpa using hflt
    rcases List.mem_filterMap.mp hsr3 with ⟨p, _, hpeq⟩
    rcases Option.map_eq_some'.mp hpeq with ⟨r, hget, hmk⟩
    have hrmem : r ∈ loadRecipes raws := List.get?_mem hget
    rcases List.mem_map.mp hrmem with ⟨raw, _, hraw⟩
    have hrec : sr.recipe = r := by
      rw [← hmk]
    have hall : sr.recipe.allergens = detect sr.recipe.ingredients := by
      rw [hrec, ← hraw]
      rfl
    have h1 : matchesExclusion sr.recipe.allergens [c] = false :=
      matchesExclusion_singleton _ _ _ hfalse hc
    rw [hall, detect_eq_labelOf] at h1 ⊢
    exact excl_no_substr c (hexcl c hc) _ _ _ _ h1

/-- A concrete raw dataset entry used in test instances. -/
def testRaw : RawRecipe := ⟨0, "Tomato Pasta", "italian", ["tomato"]⟩

/-- The scored result that recommend produces for the one-recipe test
corpus and the query "tomato". -/
noncomputable def testScored : ScoredRecipe :=
  ⟨loadRecipe testRaw, cosineSim (transform ["tomato"] constIdf "tomato") [1]⟩

/-- C1 witness: the exclusion guarantee instantiated on a concrete
one-recipe corpus with the nuts exclusion. -/
theorem recommend_excludes_witness :
    ciHasSubstr "nuts" testScored.recipe.allergens = false
    ∧ matchesExclusion "None" ["nuts"] = false :=
  recommend_excludes [testRaw] [[1]] ["tomato"] constIdf "tomato" 5 ["nuts"]
    [testScored] testScored "nuts" (by decide) rfl
    (List.mem_singleton.mpr rfl) (List.mem_singleton.mpr rfl)

/-- Outcome of one search interaction of src/app.py: the displayed result
list, the error message shown for empty input, or an uncaught exception
escaping from the recommender (which Streamlit would surface as a
crash). -/
inductive AppOutcome where
  | results (shown : List ScoredRecipe)
  | inputError
  | recommendFailed

/-- Post-processing of the recommender's output by src/app.py lines 77-88:
filter by the selected cuisines when any are selected, then truncate to
the requested number of recipes. -/
noncomputable def appPost (res : Except RecipeError (List ScoredRecipe))
    (numRecipes : Nat) (sel : List String) : AppOutcome :=
  match res with
  | Except.error _ => AppOutcome.recommendFailed
  | Except.ok recs =>
    AppOutcome.results
      ((if sel ≠ [] then recs.filter (fun sr => decide (sr.recipe.cuisine ∈ sel))
        else recs).take numRecipes)

/-- The search flow of src/app.py lines 73-88: when the stripped user input
is non-empty, call recommend with top-N three times the requested count and
post-process; otherwise show the empty-input error and compute nothing. -/
noncomputable def appRun (recipes : List Recipe) (vecs : List (List ℝ))
    (vocab : List String) (idf : String → ℝ) (userInput : String)
    (numRecipes : Nat) (selectedCuisines : List String)
    (filterOptions : List String) : AppOutcome :=
  if isBlank userInput then AppOutcome.inputError
  else
    appPost
      (recommend recipes vecs vocab idf userInput ((numRecipes * 3 : ℕ) : ℤ) filterOptions)
      numRecipes selectedCuisines

/-- The list of recipes a given app outcome displays. -/
def shownList : AppOutcome → List ScoredRecipe
  | AppOutcome.results l => l
  | AppOutcome.inputError => []
  | AppOutcome.recommendFailed => []

theorem appPost_ok (recs : List ScoredRecipe) (numRecipes : Nat) (sel : List String) :
    appPost (Except.ok recs) numRecipes sel
      = AppOutcome.results
          ((if sel ≠ [] then recs.filter (fun sr => decide (sr.recipe.cuisine ∈ sel))
            else recs).take numRecipes) := rfl

/-- C8: whenever a non-empty set of cuisines is selected, every displayed
recommendation's cuisine belongs to the selected set. -/
theorem app_cuisine_filter (recipes : List Recipe) (vecs : List (List ℝ))
    (vocab : List String) (idf : String → ℝ) (input : String) (n : ℕ)
    (sel filt : List String) (shown : List ScoredRecipe) (sr : ScoredRecipe)
    (hsel : sel ≠ [])
    (hrun : appRun recipes vecs vocab idf input n sel filt = AppOutcome.results shown)
    (hsr : sr ∈ shown) : sr.recipe.cuisine ∈ sel := by
  unfold appRun at hrun
  by_cases hb : isBlank input = true
  · rw [if_pos hb] at hrun
    cases hrun
  · have hb' : isBlank input = false := by
      cases hx : isBlank input
      · rfl
      · exact absurd hx hb
    rw [if_neg hb, recommend_ok _ _ _ _ _ _ _ hb', appPost_ok, if_pos hsel] at hrun
    rw [← AppOutcome.results.inj hrun] at hsr
    rcases List.mem_filter.mp (List.mem_of_mem_take hsr) with ⟨_, hdec⟩
    exact of_decide_eq_true hdec

/-- C8 witness: the cuisine-filter guarantee instantiated on a concrete
search with the cuisine "italian" selected. -/
theorem app_cuisine_filter_witness :
    testScored.recipe.cuisine ∈ (["italian"] : List String) :=
  app_cuisine_filter (loadRecipes [testRaw]) [[1]] ["tomato"] constIdf "tomato" 5
    ["italian"] [] [testScored] testScored (by decide) rfl (List.mem_singleton.mpr rfl)

/-- C9: the UI requests three times the user-selected count from recommend
and truncates the cuisine-filtered output to the user-selected count
(a slider value between 1 and 20), so the displayed list has at most the
user-selected length and every displayed item comes from the recommend call
made with top-N three times that count. -/
theorem app_truncates (recipes : List Recipe) (vecs : List (List ℝ))
    (vocab : List String) (idf : String → ℝ) (input : String) (n : ℕ)
    (sel filt : List String) (h1 : 1 ≤ n) (h2 : n ≤ 20) :
    (shownList (appRun recipes vecs vocab idf input n sel filt)).length ≤ n
    ∧ ∀ sr ∈ shownList (appRun recipes vecs vocab idf input n sel filt),
        ∀ out, recommend recipes vecs vocab idf input ((n * 3 : ℕ) : ℤ) filt = Except.ok out
          → sr ∈ out := by
  by_cases hb : isBlank input = true
  · have hrun : appRun recipes vecs vocab idf input n sel filt = AppOutcome.inputError := by
      unfold appRun
      rw [if_pos hb]
    rw [hrun]
    refine ⟨Nat.zero_le n, ?_⟩
    intro sr hsr out
    cases hsr
  · have hb' : isBlank input = false := by
      cases hx : isBlank input
      · rfl
      · exact absurd hx hb
    have hok := recommend_ok recipes vecs vocab idf input ((n * 3 : ℕ) : ℤ) filt hb'
    have hrun : appRun recipes vecs vocab idf input n sel filt
        = AppOutcome.results
            ((if sel ≠ [] then
                (recommendList recipes vecs vocab idf input ((n * 3 : ℕ) : ℤ) filt).filter
                  (fun sr => decide (sr.recipe.cuisine ∈ sel))
              else recommendList recipes vecs vocab idf input ((n * 3 : ℕ) : ℤ) filt).take n) := by
      unfold appRun
      rw [if_neg hb, hok, appPost_ok]
    rw [hrun]
    constructor
    · show (List.take n _).length ≤ n
      rw [List.length_take]
      exact min_le_left _ _
    · intro sr hsr out hout
      have hone : out = recommendList recipes vecs vocab idf input ((n * 3 : ℕ) : ℤ) filt := by
        rw [hok] at hout
        exact (Except.ok.inj hout).symm
      rw [hone]
      have hsr2 := List.mem_of_mem_take hsr
      by_cases hselne : sel ≠ []
      · rw [if_pos hselne] at hsr2
        exact List.mem_of_mem_filter hsr2
      · rw [if_neg hselne] at hsr2
        exact hsr2

/-- C9 witness: the displayed-length bound instantiated on a concrete
search asking for five recipes. -/
theorem app_truncates_witness :
    (shownList (appRun (loadRecipes [testRaw]) [[1]] ["tomato"] constIdf
      "tomato" 5 [] [])).length ≤ 5 :=
  (app_truncates (loadRecipes [testRaw]) [[1]] ["tomato"] constIdf "tomato" 5 [] []
    (by decide) (by decide)).1

/-- C10: the UI never invokes recommend with empty or whitespace-only
input: blank input takes the error-message branch without computing a
recommendation, and on non-blank input the recommend call always succeeds,
so the facade's empty-query error branch is unreachable from this UI. -/
theorem app_guards_empty_input (recipes : List Recipe) (vecs : List (List ℝ))
    (vocab : List String) (idf : String → ℝ) (input : String) (n : ℕ)
    (sel filt : List String) :
    (isBlank input = true →
      appRun recipes vecs vocab idf input n sel filt = AppOutcome.inputError)
    ∧ (isBlank input = false →
        appRun recipes vecs vocab idf input n sel filt ≠ AppOutcome.recommendFailed
        ∧ recommend recipes vecs vocab idf input ((n * 3 : ℕ) : ℤ) filt
            = Except.ok (recommendList recipes vecs vocab idf input ((n * 3 : ℕ) : ℤ) filt)) := by
  constructor
  · intro hb
    unfold appRun
    rw [if_pos hb]
  · intro hb'
    have hb : ¬ isBlank input = true := by
      rw [hb']
      exact Bool.false_ne_true
    have hok := recommend_ok recipes vecs vocab idf input ((n * 3 : ℕ) : ℤ) filt hb'
    refine ⟨?_, hok⟩
    unfold appRun
    rw [if_neg hb, hok, appPost_ok]
    intro hcontra
    cases hcontra

/-- C10 witness: empty input takes the error branch. -/
theorem app_guards_empty_input_witness :
    appRun [] [] [] constIdf "" 5 [] [] = AppOutcome.inputError :=
  (app_guards_empty_input [] [] [] constIdf "" 5 [] []).1 (by decide)

end RecipeRec
